import Mathlib

/-!
Shallow embedding of the generation core of `src/models/llama3/reference_impl/generation.py`:
the nucleus sampler `sample_top_p`, the decode loop `Llama.generate` (batch size 1, as the
source hardcodes `prompt_tokens = [model_input.tokens]` and `bsz = 1`), and the two adapters
`Llama.text_completion` and `Llama.chat_completion`.

Modelling conventions:
* probabilities and logits are exact rationals (`ℚ`); the torch float semantics of
  sort/cumsum/masking/renormalization are reproduced exactly over `ℚ`;
* `torch.multinomial(dist, 1)` is modelled by inverse-CDF selection against a caller-supplied
  draw `u` (one fresh draw per decoding position);
* the external collaborators (the transformer forward pass, `tokenizer.decode`,
  `torch.softmax` and `F.cross_entropy`, whose values involve transcendental `exp`/`log`)
  are uninterpreted function parameters: every theorem below quantifies over them, and no
  claim depends on their concrete values, only on how `generate` routes data through them;
* the decode loop is a Python generator; its observable behaviour towards the caller is the
  list of yielded `TokenResult`s.  The embedding additionally reports the final token buffer
  and the number of forward-pass invocations, which the theorems use to state buffer and
  forward-pass properties.
-/

namespace LlamaGen

/-! ### Sampler: `sample_top_p` (generation.py lines 334-356) -/

/-- descending comparison on (probability, original index) pairs, modelling
`torch.sort(probs, dim=-1, descending=True)` which returns values together with the
source indices. -/
def pairGE (a b : ℚ × Nat) : Prop := b.1 ≤ a.1

instance : DecidableRel pairGE := fun a b => inferInstanceAs (Decidable (b.1 ≤ a.1))

/-- result of `torch.sort(probs, descending=True)`: the list of (value, original index)
pairs in descending value order. -/
def sortedWithIdx (probs : List ℚ) : List (ℚ × Nat) :=
  (probs.enum.map (fun q => (q.2, q.1))).insertionSort pairGE

/-- `probs_sort` of the source: the probabilities in descending order. -/
def probs_sort (probs : List ℚ) : List ℚ := (sortedWithIdx probs).map Prod.fst

/-- `probs_idx` of the source: the original vocabulary index of each sorted entry. -/
def probs_idx (probs : List ℚ) : List Nat := (sortedWithIdx probs).map Prod.snd

/-- the masking/zeroing pass of the source:
`probs_sum = torch.cumsum(probs_sort, dim=-1); mask = probs_sum - probs_sort > p;
probs_sort[mask] = 0.0`.  The accumulator `acc` carries the cumulative sum of the entries
already passed, so `(acc + x) - x` is exactly `probs_sum - probs_sort` at the current entry. -/
def cumsumMaskZero (p : ℚ) : ℚ → List ℚ → List ℚ
  | _, [] => []
  | acc, x :: xs => (if (acc + x) - x > p then 0 else x) :: cumsumMaskZero p (acc + x) xs

/-- `torch.multinomial(dist, num_samples=1)` modelled by inverse-CDF selection: the first
index whose cumulative mass strictly exceeds the draw `u`, with the last index as fallback
when `u` is not below the total mass. -/
def multinomialIdx : List ℚ → ℚ → Nat
  | [], _ => 0
  | x :: xs, u => if u < x then 0 else if xs.isEmpty then 0 else multinomialIdx xs (u - x) + 1

/-- `sample_top_p(probs, p)` of the source, as a function of the multinomial draw `u`:
sort descending, zero every entry whose cumulative sum minus the entry exceeds `p`,
renormalize in place (`probs_sort.div_(probs_sort.sum(...))`), draw one index by
multinomial sampling, and gather the original index through `probs_idx`. -/
def sample_top_p (probs : List ℚ) (p : ℚ) (u : ℚ) : Nat :=
  let psort := probs_sort probs
  let masked := cumsumMaskZero p 0 psort
  let renormed := masked.map (· / masked.sum)
  (probs_idx probs).getD (multinomialIdx renormed u) 0

/-- spec-side masking pass, written from the specification's words: an entry is excluded
exactly when the cumulative sum strictly BEFORE the entry exceeds `p` (the accumulator
`before` is that cumulative sum). -/
def specMaskZero (p : ℚ) : ℚ → List ℚ → List ℚ
  | _, [] => []
  | before, x :: xs => (if before > p then 0 else x) :: specMaskZero p (before + x) xs

/-- spec-side nucleus sampler, written from the specification's words: sort descending,
exclude the sorted entries whose cumulative sum before the entry exceeds `p`, zero them,
renormalize the remainder, draw by multinomial sampling, and map the drawn index back
through the sort permutation to the original vocabulary id. -/
def specNucleus (probs : List ℚ) (p : ℚ) (u : ℚ) : Nat :=
  let psort := probs_sort probs
  let kept := specMaskZero p 0 psort
  let renormed := kept.map (· / kept.sum)
  (probs_idx probs).getD (multinomialIdx renormed u) 0

/-- a well-formed probability distribution: entrywise nonnegative, total mass 1. -/
def validDist (probs : List ℚ) : Prop := (∀ x ∈ probs, 0 ≤ x) ∧ probs.sum = 1

/-- helper for `torch.argmax`: running scan remembering the first maximal entry. -/
def argmaxGo : List ℚ → Nat → ℚ → Nat → Nat
  | [], best, _, _ => best
  | x :: xs, best, bestV, i =>
    if bestV < x then argmaxGo xs i x (i + 1) else argmaxGo xs best bestV (i + 1)

/-- `torch.argmax(logits[:, -1], dim=-1)`: index of the first maximal entry. -/
def argmaxIdx : List ℚ → Nat
  | [] => 0
  | x :: xs => argmaxGo xs 0 x 1

/-! ### Decode loop: `Llama.generate` (generation.py lines 147-235) -/

/-- one decode-step result, mirroring the `TokenResult` dataclass (token id, decoded text
fragment, optional per-token log-probabilities for the newly covered window). -/
structure TokenResult where
  token : Int
  text : String
  logprobs : Option (List ℚ)
deriving Repr, DecidableEq

/-- static parameters and external collaborators read by `Llama.generate`:
`params.max_seq_len`, `tokenizer.pad_id`, `tokenizer.stop_tokens`, the forward pass
`model.forward(window, prev_pos)` returning per-position logits over the vocabulary,
`tokenizer.decode`, and `F.cross_entropy` (as an uninterpreted per-window oracle, since its
value is a transcendental log-likelihood; no claim depends on its output values). -/
structure GenParams where
  maxSeqLen : Nat
  padId : Int
  stopTokens : List Int
  forward : List Int → Nat → List (List ℚ)
  decode : List Int → String
  xentO : List (List ℚ) → List Int → List ℚ

/-- python slice `l[a:b]`. -/
def sliceL (l : List α) (a b : Nat) : List α := (l.drop a).take (b - a)

/-- python slice assignment `l[a : a + vals.length] = vals`. -/
def writeSlice (l : List α) (a : Nat) (vals : List α) : List α :=
  l.take a ++ vals ++ l.drop (a + vals.length)

/-- observable outcome of one `generate` call: the yielded `TokenResult`s (the Python
generator's only output channel towards the caller), plus the final token buffer and the
number of forward-pass invocations, reported for stating buffer/forward-pass properties. -/
structure GenOut where
  results : List TokenResult
  finalTokens : List Int
  forwardCount : Nat
deriving Repr, DecidableEq

/-- the prompt mask of the source, computed once over the freshly initialized buffer:
`input_text_mask = tokens != pad_id` where `tokens` is the prompt followed by `pad_id`
padding up to `total_len`. -/
def input_text_mask (P : GenParams) (promptTokens : List Int) (totalLen : Nat) : List Bool :=
  (promptTokens ++ List.replicate (totalLen - promptTokens.length) P.padId).map
    (fun t => decide (t ≠ P.padId))

/-- per-step sampling: forward pass over the window `tokens[prev_pos:cur_pos]`, then either
`sample_top_p(softmax(logits[:, -1] / temperature), top_p)` when `temperature > 0` or
`argmax(logits[:, -1])` otherwise. -/
def stepSampled (P : GenParams) (softmaxO : List ℚ → List ℚ) (us : Nat → ℚ)
    (temperature topP : ℚ) (tokens : List Int) (prevPos curPos : Nat) : Int :=
  let logits := P.forward (sliceL tokens prevPos curPos) prevPos
  let lastLogits := logits.getLastD []
  if 0 < temperature then
    Int.ofNat (sample_top_p (softmaxO (lastLogits.map (· / temperature))) topP (us curPos))
  else Int.ofNat (argmaxIdx lastLogits)

/-- the `torch.where(input_text_mask[:, cur_pos], tokens[:, cur_pos], next_token)`
prompt-mask override applied to the sampled token. -/
def stepNextToken (P : GenParams) (softmaxO : List ℚ → List ℚ) (us : Nat → ℚ)
    (temperature topP : ℚ) (mask : List Bool) (tokens : List Int) (prevPos curPos : Nat) : Int :=
  if mask.getD curPos false then tokens.getD curPos P.padId
  else stepSampled P softmaxO us temperature topP tokens prevPos curPos

/-- the per-step log-probability bookkeeping when `logprobs` is requested:
`token_logprobs[:, prev_pos+1:cur_pos+1] = -F.cross_entropy(logits, tokens[prev_pos+1:cur_pos+1])`
(the same forward-pass logits as sampling; `forward` is a pure oracle, so writing the call
twice denotes the one per-step invocation). -/
def stepTlp (P : GenParams) (lp : Bool) (tokens tokensAfter : List Int) (tlp : List ℚ)
    (prevPos curPos : Nat) : List ℚ :=
  if lp then
    writeSlice tlp (prevPos + 1)
      ((P.xentO (P.forward (sliceL tokens prevPos curPos) prevPos)
        (sliceL tokensAfter (prevPos + 1) (curPos + 1))).map Neg.neg)
  else tlp

/-- the sticky stop update
`eos_reached |= (~input_text_mask[:, cur_pos]) & torch.isin(next_token, stop_tokens)`. -/
def stepEos (P : GenParams) (mask : List Bool) (curPos : Nat) (eosReached : Bool)
    (nextToken : Int) : Bool :=
  eosReached || (!(mask.getD curPos false) && decide (nextToken ∈ P.stopTokens))

/-- the yielded `TokenResult` of one step (token id, decoded fragment, and the
`token_logprobs[:, prev_pos+1:cur_pos+1]` slice when requested). -/
def stepResult (P : GenParams) (lp : Bool) (tlpAfter : List ℚ) (prevPos curPos : Nat)
    (nextToken : Int) : TokenResult :=
  ⟨nextToken, P.decode [nextToken],
    if lp then some (sliceL tlpAfter (prevPos + 1) (curPos + 1)) else none⟩

/-- body of `for cur_pos in range(min_prompt_len, total_len)`.  `fuel` counts the remaining
loop positions (`total_len - cur_pos`); per iteration: the sampled token for the window
`tokens[prev_pos:cur_pos]`, the `torch.where` prompt-mask override, the buffer write at
`cur_pos`, the cross-entropy bookkeeping when `logprobs` is requested, the sticky
`eos_reached` update, the yield, and the `break` once `eos_reached` holds.  `softmaxO`
models `torch.softmax` and `us` supplies one multinomial draw per position. -/
def genLoop (P : GenParams) (softmaxO : List ℚ → List ℚ) (us : Nat → ℚ)
    (temperature topP : ℚ) (lp : Bool) (mask : List Bool) :
    Nat → List Int → List ℚ → Nat → Bool → Nat → List TokenResult × List Int × Nat
  | 0, tokens, _, _, _, _ => ([], tokens, 0)
  | fuel + 1, tokens, tlp, prevPos, eosReached, curPos =>
    let nextToken := stepNextToken P softmaxO us temperature topP mask tokens prevPos curPos
    let tokens' := tokens.set curPos nextToken
    let tlp' := stepTlp P lp tokens tokens' tlp prevPos curPos
    let eos' := stepEos P mask curPos eosReached nextToken
    let res := stepResult P lp tlp' prevPos curPos nextToken
    if eos' then ([res], tokens', 1)
    else
      let rest :=
        genLoop P softmaxO us temperature topP lp mask fuel tokens' tlp' curPos eos' (curPos + 1)
      (res :: rest.1, rest.2.1, rest.2.2 + 1)

/-- `Llama.generate` for the single sequence the source drives (`bsz = 1`, so
`min_prompt_len = max_prompt_len = promptTokens.length`): reject a prompt at or above
`max_seq_len` by returning without yielding; otherwise build the buffer of length
`total_len = min(max_gen_len + prompt_len, max_seq_len)` pre-filled with `pad_id`, compute
the prompt mask, run one forward pass over the full prompt in the degenerate
`min_prompt_len == total_len` case (whose cross-entropy result is stored in a local the
generator never yields), and run the decode loop. -/
def generate (P : GenParams) (softmaxO : List ℚ → List ℚ) (us : Nat → ℚ)
    (promptTokens : List Int) (maxGenLen : Nat) (temperature topP : ℚ) (lp : Bool) : GenOut :=
  let L := promptTokens.length
  if P.maxSeqLen ≤ L then ⟨[], [], 0⟩
  else
    let totalLen := min (maxGenLen + L) P.maxSeqLen
    let tokens0 := promptTokens ++ List.replicate (totalLen - L) P.padId
    let mask := input_text_mask P promptTokens totalLen
    let tlp0 : List ℚ := List.replicate totalLen 0
    let preFwd := if L = totalLen then 1 else 0
    let out := genLoop P softmaxO us temperature topP lp mask (totalLen - L) tokens0 tlp0 0 false L
    ⟨out.1, out.2.1, preFwd + out.2.2⟩

/-! ### Adapters: `Llama.text_completion` and `Llama.chat_completion`
(generation.py lines 237-331) -/

/-- the shared `max_gen_len` resolution of both adapters: `None`, `0` and values at or above
`max_seq_len` all resolve to `max_seq_len - 1`. -/
def resolveMaxGen (maxSeqLen : Nat) (maxGenLen : Option Nat) : Nat :=
  match maxGenLen with
  | none => maxSeqLen - 1
  | some v => if v = 0 ∨ maxSeqLen ≤ v then maxSeqLen - 1 else v

/-- the `CompletionPrediction` dataclass.  `generation` is `tokenizer.decode` applied to all
accumulated tokens; the optional diagnostics are the per-step decoded fragments and
log-probability lists, present exactly when requested. -/
structure CompletionPrediction where
  generation : String
  decoded_tokens : Option (List String)
  logprobs : Option (List (Option (List ℚ)))
deriving Repr, DecidableEq

/-- `Llama.text_completion`, parameterized by the already-encoded prompt tokens
(`tokenizer.encode` is an external collaborator): resolve `max_gen_len`, drive `generate`
to exhaustion accumulating tokens (and diagnostics when requested), and decode the
accumulated tokens. -/
def text_completion (P : GenParams) (softmaxO : List ℚ → List ℚ) (us : Nat → ℚ)
    (promptTokens : List Int) (temperature topP : ℚ) (maxGenLen : Option Nat) (lp : Bool) :
    CompletionPrediction :=
  let out :=
    generate P softmaxO us promptTokens (resolveMaxGen P.maxSeqLen maxGenLen) temperature topP lp
  let gen := P.decode (out.results.map TokenResult.token)
  if lp then
    ⟨gen, some (out.results.map TokenResult.text), some (out.results.map TokenResult.logprobs)⟩
  else ⟨gen, none, none⟩

/-- the `StopReason` enumeration of the chat adapter. -/
inductive StopReason where
  | end_of_turn
  | end_of_message
  | out_of_tokens
deriving Repr, DecidableEq

/-- the per-result stop-reason update of `chat_completion`: the end-of-turn marker text sets
`end_of_turn`, the end-of-message marker text sets `end_of_message`, any other text leaves
the current value. -/
def updateStopReason (r : Option StopReason) (text : String) : Option StopReason :=
  if text = "<|eot_id|>" then some StopReason.end_of_turn
  else if text = "<|eom_id|>" then some StopReason.end_of_message
  else r

/-- spec-side characterization used for the stop-reason theorem: the marker carried by the
LAST marker-bearing text of the trace, if any. -/
def lastMarker : List String → Option StopReason
  | [] => none
  | t :: ts =>
    match lastMarker ts with
    | some r => some r
    | none => updateStopReason none t

/-- spec-side stop reason of a trace of decoded fragments: the last observed marker,
defaulting to `out_of_tokens` when no marker was ever observed. -/
def specStopReason (texts : List String) : StopReason :=
  (lastMarker texts).getD StopReason.out_of_tokens

/-- the `ChatPrediction` content the core computes: the accumulated tokens and the stop
reason that the external collaborator `formatter.decode_assistant_message` receives, plus
the optional diagnostics (message reconstruction itself is an excluded collaborator). -/
structure ChatPrediction where
  tokens : List Int
  stopReason : StopReason
  decoded_tokens : Option (List String)
  logprobs : Option (List (Option (List ℚ)))
deriving Repr, DecidableEq

/-- `Llama.chat_completion`, parameterized by the already-formatted dialog prompt tokens
(`formatter.encode_dialog_prompt` is an external collaborator): resolve `max_gen_len`,
drive `generate`, fold the stop-reason update over the emitted texts (starting from `None`,
defaulting to `out_of_tokens` after the loop), and accumulate tokens and diagnostics. -/
def chat_completion (P : GenParams) (softmaxO : List ℚ → List ℚ) (us : Nat → ℚ)
    (promptTokens : List Int) (temperature topP : ℚ) (maxGenLen : Option Nat) (lp : Bool) :
    ChatPrediction :=
  let out :=
    generate P softmaxO us promptTokens (resolveMaxGen P.maxSeqLen maxGenLen) temperature topP lp
  let sr :=
    (out.results.foldl (fun r res => updateStopReason r res.text) none).getD
      StopReason.out_of_tokens
  ⟨out.results.map TokenResult.token, sr,
    if lp then some (out.results.map TokenResult.text) else none,
    if lp then some (out.results.map TokenResult.logprobs) else none⟩

/-! ### Sampler lemmas -/

instance : IsTotal (ℚ × Nat) pairGE := ⟨fun a b => le_total b.1 a.1⟩

instance : IsTrans (ℚ × Nat) pairGE := ⟨fun _ _ _ h1 h2 => le_trans h2 h1⟩

theorem cumsumMaskZero_eq_spec (p : ℚ) : ∀ (acc : ℚ) (l : List ℚ),
    cumsumMaskZero p acc l = specMaskZero p acc l
  | _, [] => rfl
  | acc, x :: xs => by
    simp only [cumsumMaskZero, specMaskZero, add_sub_cancel_right,
      cumsumMaskZero_eq_spec p (acc + x) xs]

theorem probs_sort_perm (probs : List ℚ) : (probs_sort probs).Perm probs := by
  have h1 : (sortedWithIdx probs).Perm (probs.enum.map (fun q => (q.2, q.1))) :=
    List.perm_insertionSort pairGE _
  have h2 := h1.map Prod.fst
  simpa [probs_sort, sortedWithIdx, List.map_map, Function.comp_def] using h2

theorem probs_sort_sum (probs : List ℚ) : (probs_sort probs).sum = probs.sum :=
  (probs_sort_perm probs).sum_eq

theorem probs_sort_nonneg (probs : List ℚ) (hv : ∀ x ∈ probs, 0 ≤ x) :
    ∀ x ∈ probs_sort probs, 0 ≤ x := fun x hx =>
  hv x ((probs_sort_perm probs).mem_iff.mp hx)

theorem probs_sort_sorted (probs : List ℚ) : (probs_sort probs).Sorted (· ≥ ·) := by
  have h := List.sorted_insertionSort pairGE (probs.enum.map (fun q => (q.2, q.1)))
  simp only [probs_sort, sortedWithIdx, List.Sorted]
  exact List.Pairwise.map Prod.fst (fun a b hab => hab) h

theorem specMaskZero_getD (p : ℚ) : ∀ (l : List ℚ) (acc : ℚ) (i : Nat), i < l.length →
    (specMaskZero p acc l).getD i 0 =
      if acc + (l.take i).sum > p then 0 else l.getD i 0
  | [], _, i, h => absurd h (by simp)
  | x :: xs, acc, 0, _ => by simp [specMaskZero]
  | x :: xs, acc, i + 1, h => by
    have ih := specMaskZero_getD p xs (acc + x) i (Nat.lt_of_succ_lt_succ h)
    simp only [specMaskZero, List.getD_cons_succ, List.take_succ_cons, List.sum_cons, ih]
    rw [add_assoc]

theorem specMaskZero_sum_nonneg (p : ℚ) : ∀ (l : List ℚ) (acc : ℚ),
    (∀ x ∈ l, 0 ≤ x) → 0 ≤ (specMaskZero p acc l).sum
  | [], _, _ => le_refl 0
  | x :: xs, acc, h => by
    have hx : (0:ℚ) ≤ x := h x (by simp)
    have ih := specMaskZero_sum_nonneg p xs (acc + x) (fun y hy => h y (by simp [hy]))
    simp only [specMaskZero, List.sum_cons]
    split
    · simpa using ih
    · exact add_nonneg hx ih

theorem specMaskZero_sum_ge (p : ℚ) : ∀ (l : List ℚ) (acc : ℚ),
    (∀ x ∈ l, 0 ≤ x) → acc ≤ p → min p (acc + l.sum) - acc ≤ (specMaskZero p acc l).sum
  | [], acc, _, _ => by
    simp only [specMaskZero, List.sum_nil, add_zero]
    have : min p acc ≤ acc := min_le_right p acc
    linarith
  | x :: xs, acc, h, hacc => by
    have hx : (0:ℚ) ≤ x := h x (by simp)
    have hxs : ∀ y ∈ xs, (0:ℚ) ≤ y := fun y hy => h y (by simp [hy])
    have hhead : ¬ acc > p := not_lt.mpr hacc
    simp only [specMaskZero, List.sum_cons, if_neg hhead]
    by_cases hax : acc + x ≤ p
    · have ih := specMaskZero_sum_ge p xs (acc + x) hxs hax
      have hmm : min p (acc + (x + xs.sum)) = min p ((acc + x) + xs.sum) := by ring_nf
      rw [hmm]
      linarith
    · have htail := specMaskZero_sum_nonneg p xs (acc + x) hxs
      have hmin : min p (acc + (x + xs.sum)) ≤ p := min_le_left _ _
      linarith [not_le.mp hax]

theorem masked_sum_pos (probs : List ℚ) (p : ℚ) (hv : validDist probs) (hp0 : 0 < p)
    (hp1 : p ≤ 1) : 0 < (specMaskZero p 0 (probs_sort probs)).sum := by
  have h1 := specMaskZero_sum_ge p (probs_sort probs) 0 (probs_sort_nonneg probs hv.1)
    (le_of_lt hp0)
  rw [probs_sort_sum, hv.2] at h1
  have h2 : min p ((0:ℚ) + 1) = p := by
    rw [zero_add]
    exact min_eq_left hp1
  rw [h2, sub_zero] at h1
  exact lt_of_lt_of_le hp0 h1

theorem sum_map_div (l : List ℚ) (c : ℚ) : (l.map (· / c)).sum = l.sum / c := by
  induction l with
  | nil => simp
  | cons x xs ih => simp [ih, add_div]

theorem specMaskZero_eq_self (p : ℚ) : ∀ (l : List ℚ) (acc : ℚ),
    (∀ x ∈ l, 0 ≤ x) → acc + l.sum ≤ p → specMaskZero p acc l = l
  | [], _, _, _ => rfl
  | x :: xs, acc, h, hle => by
    have hx : (0:ℚ) ≤ x := h x (by simp)
    have hxs : ∀ y ∈ xs, (0:ℚ) ≤ y := fun y hy => h y (by simp [hy])
    have hsum : (0:ℚ) ≤ xs.sum := List.sum_nonneg hxs
    have hsc : (x :: xs).sum = x + xs.sum := List.sum_cons
    have hhead : ¬ acc > p := by
      rw [hsc] at hle
      exact not_lt.mpr (by linarith)
    have htail := specMaskZero_eq_self p xs (acc + x)
      hxs (by rw [hsc] at hle; linarith)
    simp only [specMaskZero, if_neg hhead, htail]

theorem sortedWithIdx_mass (probs : List ℚ) :
    ∀ pr ∈ sortedWithIdx probs, probs.getD pr.2 0 = pr.1 := by
  intro pr hpr
  have h1 : pr ∈ probs.enum.map (fun q => (q.2, q.1)) :=
    ((List.perm_insertionSort pairGE _).mem_iff).mp hpr
  obtain ⟨q, hq, rfl⟩ := List.mem_map.mp h1
  have h2 := List.mem_enum_iff_getElem?.mp hq
  simp [List.getD_eq_getElem?_getD, h2]

/-! ### Decode-loop lemmas -/

theorem take_set_of_le (l : List α) (i n : Nat) (a : α) (h : n ≤ i) :
    (l.set i a).take n = l.take n := by
  apply List.ext_getElem
  · simp
  · intro j h1 h2
    have hj : j < n := by simp at h1; omega
    simp only [List.getElem_take]
    rw [List.getElem_set_ne (by omega)]

theorem getLast?_cons_of_some (a : α) (l : List α) (r : α) (h : l.getLast? = some r) :
    (a :: l).getLast? = some r := by
  cases l with
  | nil => simp at h
  | cons b t => rw [List.getLast?_cons_cons]; exact h

theorem genLoop_take (P : GenParams) (softmaxO : List ℚ → List ℚ) (us : Nat → ℚ)
    (temperature topP : ℚ) (lp : Bool) (mask : List Bool) :
    ∀ (fuel : Nat) (tokens : List Int) (tlp : List ℚ) (prevPos : Nat) (eos : Bool)
      (curPos n : Nat), n ≤ curPos →
      ((genLoop P softmaxO us temperature topP lp mask fuel tokens tlp prevPos eos
          curPos).2.1).take n = tokens.take n := by
  intro fuel
  induction fuel with
  | zero => intro tokens tlp prevPos eos curPos n _; rfl
  | succ fuel ih =>
    intro tokens tlp prevPos eos curPos n hn
    simp only [genLoop]
    split
    · exact take_set_of_le tokens curPos n _ hn
    · rw [ih _ _ _ _ _ n (le_trans hn (Nat.le_succ curPos))]
      exact take_set_of_le tokens curPos n _ hn

theorem genLoop_bound (P : GenParams) (softmaxO : List ℚ → List ℚ) (us : Nat → ℚ)
    (temperature topP : ℚ) (lp : Bool) (mask : List Bool) :
    ∀ (fuel : Nat) (tokens : List Int) (tlp : List ℚ) (prevPos curPos : Nat),
      (genLoop P softmaxO us temperature topP lp mask fuel tokens tlp prevPos false
          curPos).1.length ≤ fuel ∧
      ((genLoop P softmaxO us temperature topP lp mask fuel tokens tlp prevPos false
          curPos).1.length < fuel →
        ∃ r, (genLoop P softmaxO us temperature topP lp mask fuel tokens tlp prevPos false
            curPos).1.getLast? = some r ∧ r.token ∈ P.stopTokens) := by
  intro fuel
  induction fuel with
  | zero =>
    intro tokens tlp prevPos curPos
    exact ⟨le_refl 0, fun h => absurd h (lt_irrefl 0)⟩
  | succ fuel ih =>
    intro tokens tlp prevPos curPos
    simp only [genLoop]
    split
    · rename_i hcond
      simp only [stepEos, Bool.false_or, Bool.and_eq_true, decide_eq_true_eq] at hcond
      refine ⟨by simp, fun _ => ⟨_, rfl, ?_⟩⟩
      simpa [stepResult] using hcond.2
    · rename_i hcond
      rw [Bool.not_eq_true] at hcond
      rw [hcond]
      have hIH := ih
        (tokens.set curPos (stepNextToken P softmaxO us temperature topP mask tokens prevPos
          curPos))
        (stepTlp P lp tokens
          (tokens.set curPos (stepNextToken P softmaxO us temperature topP mask tokens prevPos
            curPos)) tlp prevPos curPos)
        curPos (curPos + 1)
      constructor
      · simpa using Nat.succ_le_succ hIH.1
      · intro hlt
        simp only [List.length_cons] at hlt
        obtain ⟨r, hr1, hr2⟩ := hIH.2 (Nat.lt_of_succ_lt_succ hlt)
        exact ⟨r, getLast?_cons_of_some _ _ r hr1, hr2⟩

theorem genLoop_progress (P : GenParams) (softmaxO : List ℚ → List ℚ) (us : Nat → ℚ)
    (temperature topP : ℚ) (lp : Bool) (mask : List Bool) (fuel : Nat) (tokens : List Int)
    (tlp : List ℚ) (prevPos : Nat) (eos : Bool) (curPos : Nat) :
    (genLoop P softmaxO us temperature topP lp mask (fuel + 1) tokens tlp prevPos eos
        curPos).1 ≠ [] ∧
    1 ≤ (genLoop P softmaxO us temperature topP lp mask (fuel + 1) tokens tlp prevPos eos
        curPos).2.2 := by
  simp only [genLoop]
  split
  · exact ⟨by simp, le_refl 1⟩
  · exact ⟨by simp, by simp⟩

theorem genLoop_greedy (P : GenParams) (sm1 sm2 : List ℚ → List ℚ) (us1 us2 : Nat → ℚ)
    (temperature topP1 topP2 : ℚ) (lp : Bool) (mask : List Bool) (h : temperature ≤ 0) :
    ∀ (fuel : Nat) (tokens : List Int) (tlp : List ℚ) (prevPos : Nat) (eos : Bool)
      (curPos : Nat),
      genLoop P sm1 us1 temperature topP1 lp mask fuel tokens tlp prevPos eos curPos =
        genLoop P sm2 us2 temperature topP2 lp mask fuel tokens tlp prevPos eos curPos := by
  intro fuel
  induction fuel with
  | zero => intro tokens tlp prevPos eos curPos; rfl
  | succ fuel ih =>
    intro tokens tlp prevPos eos curPos
    have hs : ∀ (tokens' : List Int) (prevPos' curPos' : Nat),
        stepNextToken P sm1 us1 temperature topP1 mask tokens' prevPos' curPos' =
          stepNextToken P sm2 us2 temperature topP2 mask tokens' prevPos' curPos' := by
      intro tokens' prevPos' curPos'
      simp only [stepNextToken, stepSampled, if_neg (not_lt.mpr h)]
    simp only [genLoop, hs, ih]

/-! ### Claim theorems: sampler -/

/-- C1: for every probability distribution and every p in (0,1], nucleus sampling sorts the
distribution descending, excludes exactly those sorted entries whose cumulative sum before
the entry exceeds p (the entry that first crosses the threshold is retained), zeroes the
excluded entries, renormalizes the remainder to sum to 1, draws one index by multinomial
sampling over the renormalized distribution, and maps the drawn index back through the sort
permutation to the original vocabulary id: the source pipeline `sample_top_p` coincides
with the spec-side pipeline `specNucleus`; the sorted list is descending and a permutation
of the input; the masking pass zeroes exactly the entries whose preceding cumulative sum
exceeds `p`; a first-crossing entry is retained; and the renormalized kept mass sums
to 1. -/
theorem sample_top_p_matches_spec (probs : List ℚ) (p u : ℚ) (hv : validDist probs)
    (hp0 : 0 < p) (hp1 : p ≤ 1) :
    sample_top_p probs p u = specNucleus probs p u ∧
    (probs_sort probs).Sorted (· ≥ ·) ∧
    (probs_sort probs).Perm probs ∧
    (∀ i, i < (probs_sort probs).length →
      (cumsumMaskZero p 0 (probs_sort probs)).getD i 0 =
        if ((probs_sort probs).take i).sum > p then 0 else (probs_sort probs).getD i 0) ∧
    (∀ i, i < (probs_sort probs).length →
      ((probs_sort probs).take (i + 1)).sum > p → ((probs_sort probs).take i).sum ≤ p →
      (cumsumMaskZero p 0 (probs_sort probs)).getD i 0 = (probs_sort probs).getD i 0) ∧
    ((cumsumMaskZero p 0 (probs_sort probs)).map
        (· / (cumsumMaskZero p 0 (probs_sort probs)).sum)).sum = 1 := by
  have hmaskeq := cumsumMaskZero_eq_spec p 0 (probs_sort probs)
  have hchar : ∀ i, i < (probs_sort probs).length →
      (cumsumMaskZero p 0 (probs_sort probs)).getD i 0 =
        if ((probs_sort probs).take i).sum > p then 0 else (probs_sort probs).getD i 0 := by
    intro i hi
    rw [hmaskeq, specMaskZero_getD p _ 0 i hi, zero_add]
  refine ⟨?_, probs_sort_sorted probs, probs_sort_perm probs, hchar, ?_, ?_⟩
  · simp only [sample_top_p, specNucleus, cumsumMaskZero_eq_spec]
  · intro i hi _ hle
    rw [hchar i hi, if_neg (not_lt.mpr hle)]
  · rw [hmaskeq, sum_map_div]
    exact div_self (ne_of_gt (masked_sum_pos probs p hv hp0 hp1))

/-- witness for C1 at the concrete distribution [1/2, 1/4, 1/4] with p = 2/3, u = 1/2:
the code pipeline agrees with the spec pipeline; the sorted entry at index 2 is masked by
the preceding-cumulative-sum rule (1/2 + 1/4 > 2/3), the first-crossing entry at index 1
is retained, and the renormalized kept mass sums to 1. -/
theorem sample_top_p_matches_spec_witness :
    sample_top_p [1/2, 1/4, 1/4] (2/3) (1/2) = specNucleus [1/2, 1/4, 1/4] (2/3) (1/2) ∧
    (probs_sort [1/2, 1/4, 1/4]).Sorted (· ≥ ·) ∧
    (probs_sort [1/2, 1/4, 1/4]).Perm [1/2, 1/4, 1/4] ∧
    (cumsumMaskZero (2/3) 0 (probs_sort [1/2, 1/4, 1/4])).getD 2 0 =
      (if ((probs_sort [1/2, 1/4, 1/4]).take 2).sum > 2/3 then 0
        else (probs_sort [1/2, 1/4, 1/4]).getD 2 0) ∧
    (cumsumMaskZero (2/3) 0 (probs_sort [1/2, 1/4, 1/4])).getD 1 0 =
      (probs_sort [1/2, 1/4, 1/4]).getD 1 0 ∧
    ((cumsumMaskZero (2/3) 0 (probs_sort [1/2, 1/4, 1/4])).map
        (· / (cumsumMaskZero (2/3) 0 (probs_sort [1/2, 1/4, 1/4])).sum)).sum = 1 := by
  have hlen : (probs_sort [1/2, 1/4, 1/4]).length = 3 := by
    norm_num [probs_sort, sortedWithIdx, List.insertionSort, List.orderedInsert, pairGE]
  have hsort : probs_sort [1/2, 1/4, 1/4] = [1/2, 1/4, 1/4] := by
    norm_num [probs_sort, sortedWithIdx, List.insertionSort, List.orderedInsert, pairGE]
  have h := sample_top_p_matches_spec [1/2, 1/4, 1/4] (2/3) (1/2)
    ⟨by intro x hx; simp at hx; rcases hx with rfl | rfl | rfl <;> norm_num, by norm_num⟩
    (by norm_num) (by norm_num)
  exact ⟨h.1, h.2.1, h.2.2.1, h.2.2.2.1 2 (by rw [hlen]; norm_num),
    h.2.2.2.2.1 1 (by rw [hlen]; norm_num) (by rw [hsort]; norm_num)
      (by rw [hsort]; norm_num),
    h.2.2.2.2.2⟩

/-- C9: for every valid probability distribution, nucleus sampling with p = 1 excludes no
entries — the masking pass returns the sorted list unchanged, renormalization is a no-op,
and the draw is a multinomial sample over the unmodified sorted distribution mapped back
through the sort permutation, each sorted entry carrying exactly the original
distribution's mass at the gathered vocabulary id. -/
theorem sample_top_p_p_one (probs : List ℚ) (u : ℚ) (hv : validDist probs) :
    cumsumMaskZero 1 0 (probs_sort probs) = probs_sort probs ∧
    (probs_sort probs).map (· / (probs_sort probs).sum) = probs_sort probs ∧
    sample_top_p probs 1 u = (probs_idx probs).getD (multinomialIdx (probs_sort probs) u) 0 ∧
    ∀ k, k < (probs_sort probs).length →
      probs.getD ((probs_idx probs).getD k 0) 0 = (probs_sort probs).getD k 0 := by
  have h1 : cumsumMaskZero 1 0 (probs_sort probs) = probs_sort probs := by
    rw [cumsumMaskZero_eq_spec]
    exact specMaskZero_eq_self 1 (probs_sort probs) 0 (probs_sort_nonneg probs hv.1)
      (by rw [zero_add, probs_sort_sum, hv.2])
  have h2 : (probs_sort probs).map (· / (probs_sort probs).sum) = probs_sort probs := by
    rw [probs_sort_sum, hv.2]
    simp
  refine ⟨h1, h2, ?_, ?_⟩
  · simp only [sample_top_p]
    rw [h1, h2]
  · intro k hk
    have hk' : k < (sortedWithIdx probs).length := by
      simpa [probs_sort] using hk
    have e1 : (probs_idx probs).getD k 0 = (sortedWithIdx probs)[k].2 := by
      have hk2 : k < (probs_idx probs).length := by simpa [probs_idx] using hk'
      rw [List.getD_eq_getElem _ _ hk2]
      simp [probs_idx]
    have e2 : (probs_sort probs).getD k 0 = (sortedWithIdx probs)[k].1 := by
      rw [List.getD_eq_getElem _ _ hk]
      simp [probs_sort]
    rw [e1, e2]
    exact sortedWithIdx_mass probs _ (List.getElem_mem _)

/-- witness for C9 at the concrete distribution [1/2, 1/3, 1/6] with u = 1/4. -/
theorem sample_top_p_p_one_witness :
    cumsumMaskZero 1 0 (probs_sort [1/2, 1/3, 1/6]) = probs_sort [1/2, 1/3, 1/6] ∧
    (probs_sort [1/2, 1/3, 1/6]).map (· / (probs_sort [1/2, 1/3, 1/6]).sum) =
      probs_sort [1/2, 1/3, 1/6] ∧
    sample_top_p [1/2, 1/3, 1/6] 1 (1/4) =
      (probs_idx [1/2, 1/3, 1/6]).getD
        (multinomialIdx (probs_sort [1/2, 1/3, 1/6]) (1/4)) 0 ∧
    [1/2, 1/3, 1/6].getD ((probs_idx [1/2, 1/3, 1/6]).getD 1 0) 0 =
      (probs_sort [1/2, 1/3, 1/6]).getD 1 0 := by
  have h := sample_top_p_p_one [1/2, 1/3, 1/6] (1/4)
    ⟨by intro x hx; simp at hx; rcases hx with rfl | rfl | rfl <;> norm_num, by norm_num⟩
  refine ⟨h.1, h.2.1, h.2.2.1, h.2.2.2 1 ?_⟩
  norm_num [probs_sort, sortedWithIdx, List.insertionSort, List.orderedInsert, pairGE]

/-! ### Concrete demonstration collaborators for witnesses and counterexamples -/

/-- context limit 10, pad id -1, no stop tokens, constant logits whose argmax is token 2. -/
def Pdemo : GenParams := ⟨10, -1, [], fun _ _ => [[0, 0, 1]], fun _ => "", fun _ _ => []⟩

/-- like `Pdemo` but with context limit 4. -/
def Psmall : GenParams := ⟨4, -1, [], fun _ _ => [[0, 0, 1]], fun _ => "", fun _ _ => []⟩

/-- like `Pdemo` but with token 2 as a stop token. -/
def Pstop : GenParams := ⟨10, -1, [2], fun _ _ => [[0, 0, 1]], fun _ => "", fun _ _ => []⟩

/-- like `Pdemo` with flat logits (the nucleus path decides via the softmax oracle). -/
def Pnuc : GenParams := ⟨10, -1, [], fun _ _ => [[0, 0, 0]], fun _ => "", fun _ _ => []⟩

/-- greedy step 1 emits token 1 (decoded to the end-of-turn marker), step 2 emits token 2
(decoded to the end-of-message marker); neither is a stop token. -/
def Pchat : GenParams :=
  ⟨10, -1, [], fun _ pp => if pp = 0 then [[0, 10, 0]] else [[0, 0, 10]],
    fun l => if l = [1] then "<|eot_id|>" else if l = [2] then "<|eom_id|>" else "",
    fun _ _ => []⟩

/-- constant softmax collaborator returning a fixed valid distribution. -/
def demoSoftmax : List ℚ → List ℚ := fun _ => [1/2, 1/4, 1/4]

/-- constant multinomial draw 0 (always selects the first positive-mass sorted entry). -/
def demoU : Nat → ℚ := fun _ => 0

/-! ### Claim theorems: decode loop and adapters -/

/-- C2: prompt echo invariant — for every prompt accepted by the engine (token length
below the context limit) and any `max_gen_len`, after the decode loop finishes the first
`prompt_len` positions of the token buffer equal the input prompt exactly, regardless of
the sampler outcome and of every collaborator: with batch size 1 the loop starts at
`cur_pos = prompt_len`, so prompt positions are written only at initialization, and any
step inside the prompt region (there are none) would be overridden by the prompt mask. -/
theorem generate_prompt_echo (P : GenParams) (softmaxO : List ℚ → List ℚ) (us : Nat → ℚ)
    (promptTokens : List Int) (maxGenLen : Nat) (temperature topP : ℚ) (lp : Bool)
    (h : promptTokens.length < P.maxSeqLen) :
    (generate P softmaxO us promptTokens maxGenLen temperature topP lp).finalTokens.take
      promptTokens.length = promptTokens := by
  simp only [generate, if_neg (not_le.mpr h)]
  rw [genLoop_take P softmaxO us temperature topP lp _ _ _ _ 0 false _ _ (le_refl _)]
  exact List.take_left _ _

/-- witness for C2: concrete two-token prompt under the `Pdemo` collaborators. -/
theorem generate_prompt_echo_witness :
    (generate Pdemo demoSoftmax demoU [3, 4] 2 0 1 false).finalTokens.take 2 = [3, 4] :=
  generate_prompt_echo Pdemo demoSoftmax demoU [3, 4] 2 0 1 false (by norm_num [Pdemo])

/-- C3: the decode loop yields at most `total_len - prompt_len` TokenResults, where
`total_len = min(max_gen_len + prompt_len, max_seq_len)`, and yields strictly fewer only
if the final emitted token belongs to the stop-token set, terminating the loop on that
same step (every loop position lies at or beyond `prompt_len`, i.e. outside the prompt
region). -/
theorem generate_emission_bound (P : GenParams) (softmaxO : List ℚ → List ℚ) (us : Nat → ℚ)
    (promptTokens : List Int) (maxGenLen : Nat) (temperature topP : ℚ) (lp : Bool) :
    (generate P softmaxO us promptTokens maxGenLen temperature topP lp).results.length ≤
      min (maxGenLen + promptTokens.length) P.maxSeqLen - promptTokens.length ∧
    ((generate P softmaxO us promptTokens maxGenLen temperature topP lp).results.length <
        min (maxGenLen + promptTokens.length) P.maxSeqLen - promptTokens.length →
      ∃ r, (generate P softmaxO us promptTokens maxGenLen temperature topP
          lp).results.getLast? = some r ∧ r.token ∈ P.stopTokens) := by
  by_cases h : P.maxSeqLen ≤ promptTokens.length
  · simp only [generate, if_pos h]
    refine ⟨by simp, fun hlt => absurd hlt ?_⟩
    have : min (maxGenLen + promptTokens.length) P.maxSeqLen ≤ promptTokens.length :=
      le_trans (min_le_right _ _) h
    simp only [List.length_nil]
    omega
  · simp only [generate, if_neg h]
    exact genLoop_bound P softmaxO us temperature topP lp _ _ _ _ 0 _

/-- witness for C3: under `Pstop` the greedy step emits stop token 2 immediately, so the
loop terminates after one of the three budgeted steps and the last (only) result carries a
stop token. -/
theorem generate_emission_bound_witness :
    (generate Pstop demoSoftmax demoU [5] 3 0 1 false).results.length ≤
      min (3 + ([5] : List Int).length) Pstop.maxSeqLen - ([5] : List Int).length ∧
    ((generate Pstop demoSoftmax demoU [5] 3 0 1 false).results.getLast?.map
        TokenResult.token).getD 0 ∈ Pstop.stopTokens := by
  have h := generate_emission_bound Pstop demoSoftmax demoU [5] 3 0 1 false
  obtain ⟨r, hr1, hr2⟩ := h.2
    (by norm_num [generate, genLoop, stepNextToken, stepSampled, stepEos, stepResult,
      stepTlp, sliceL, writeSlice, input_text_mask, argmaxIdx, argmaxGo, Pstop,
      demoSoftmax, demoU, List.replicate_succ])
  refine ⟨h.1, ?_⟩
  rw [hr1]
  simpa using hr2

/-- C8: for temperature ≤ 0 the engine is deterministic — two runs differing arbitrarily
in the softmax collaborator, the multinomial randomness and even `top_p` produce identical
outputs, because each step takes the arg-max of the final position's raw logits and never
consults the nucleus sampler or any source of randomness. -/
theorem greedy_deterministic (P : GenParams) (sm1 sm2 : List ℚ → List ℚ) (us1 us2 : Nat → ℚ)
    (promptTokens : List Int) (maxGenLen : Nat) (temperature topP1 topP2 : ℚ) (lp : Bool)
    (h : temperature ≤ 0) :
    generate P sm1 us1 promptTokens maxGenLen temperature topP1 lp =
      generate P sm2 us2 promptTokens maxGenLen temperature topP2 lp := by
  simp only [generate]
  rw [genLoop_greedy P sm1 sm2 us1 us2 temperature topP1 topP2 lp _ h]

/-- witness for C8: two concrete temperature-0 runs with different softmax collaborators,
different randomness and different `top_p` coincide. -/
theorem greedy_deterministic_witness :
    generate Pdemo demoSoftmax demoU [5] 2 0 (9/10) false =
      generate Pdemo (fun _ => [1]) (fun _ => 1/2) [5] 2 0 (1/3) false :=
  greedy_deterministic Pdemo demoSoftmax (fun _ => [1]) demoU (fun _ => 1/2) [5] 2 0
    (9/10) (1/3) false (le_refl 0)

/-- C4 (amended): for every prompt with token length at or above the context limit the
call returns immediately — no forward pass runs and no TokenResult is yielded — but no
failure is signaled to the caller beyond a console message: `text_completion` returns a
well-formed empty prediction, exactly as a successful zero-token generation would. -/
theorem prompt_too_long_silent (P : GenParams) (softmaxO : List ℚ → List ℚ) (us : Nat → ℚ)
    (promptTokens : List Int) (maxGenLen : Nat) (temperature topP : ℚ)
    (mg : Option Nat) (lp : Bool) (h : P.maxSeqLen ≤ promptTokens.length) :
    generate P softmaxO us promptTokens maxGenLen temperature topP lp = ⟨[], [], 0⟩ ∧
    text_completion P softmaxO us promptTokens temperature topP mg lp =
      ⟨P.decode [], if lp then some [] else none, if lp then some [] else none⟩ := by
  have hg : ∀ m, generate P softmaxO us promptTokens m temperature topP lp = ⟨[], [], 0⟩ :=
    fun m => by simp [generate, if_pos h]
  refine ⟨hg maxGenLen, ?_⟩
  simp only [text_completion, hg]
  cases lp <;> simp

/-- witness for C4 (amended): concrete four-token prompt against context limit 4. -/
theorem prompt_too_long_silent_witness :
    generate Psmall demoSoftmax demoU [1, 2, 3, 4] 5 1 (9/10) false = ⟨[], [], 0⟩ ∧
    text_completion Psmall demoSoftmax demoU [1, 2, 3, 4] 1 (9/10) (some 5) false =
      ⟨Psmall.decode [], if false then some [] else none,
        if false then some [] else none⟩ :=
  prompt_too_long_silent Psmall demoSoftmax demoU [1, 2, 3, 4] 5 1 (9/10) (some 5) false
    (by norm_num [Psmall])

/-- counterexample for C4 as stated: the too-long call is NOT distinguishable by the
caller from a successful zero-token generation and no failure is signaled — under the same
collaborators, a rejected four-token prompt (context limit 4) and an accepted degenerate
three-token prompt with `max_gen_len = 0` yield the identical empty result sequence (the
generator's only output channel), even though only the latter ran a forward pass, and
`text_completion` on the rejected prompt returns a normal well-formed empty prediction
rather than an error. -/
theorem too_long_indistinguishable_from_empty :
    (generate Psmall demoSoftmax demoU [1, 2, 3, 4] 5 1 (9/10) false).results =
      (generate Psmall demoSoftmax demoU [1, 2, 3] 0 1 (9/10) false).results ∧
    (generate Psmall demoSoftmax demoU [1, 2, 3, 4] 5 1 (9/10) false).results = [] ∧
    (generate Psmall demoSoftmax demoU [1, 2, 3, 4] 5 1 (9/10) false).forwardCount = 0 ∧
    (generate Psmall demoSoftmax demoU [1, 2, 3] 0 1 (9/10) false).forwardCount = 1 ∧
    text_completion Psmall demoSoftmax demoU [1, 2, 3, 4] 1 (9/10) (some 5) false =
      ⟨Psmall.decode [], none, none⟩ := by
  norm_num [generate, genLoop, text_completion, resolveMaxGen, Psmall]

/-- C5 (amended): when the prompt exactly fills the computed `total_len` (no generation
budget), the engine performs exactly one forward pass over the full prompt, yields zero
TokenResults, and leaves the buffer holding exactly the prompt; no log-probabilities are
delivered to the caller (the degenerate branch stores them in a local the generator never
yields). -/
theorem prompt_fill_single_forward (P : GenParams) (softmaxO : List ℚ → List ℚ)
    (us : Nat → ℚ) (promptTokens : List Int) (maxGenLen : Nat) (temperature topP : ℚ)
    (lp : Bool) (h1 : promptTokens.length < P.maxSeqLen)
    (h2 : min (maxGenLen + promptTokens.length) P.maxSeqLen = promptTokens.length) :
    (generate P softmaxO us promptTokens maxGenLen temperature topP lp).results = [] ∧
    (generate P softmaxO us promptTokens maxGenLen temperature topP lp).forwardCount = 1 ∧
    (generate P softmaxO us promptTokens maxGenLen temperature topP lp).finalTokens =
      promptTokens := by
  simp [generate, if_neg (not_le.mpr h1), h2, genLoop]

/-- witness for C5 (amended): three-token prompt with `max_gen_len = 0` under `Pdemo`. -/
theorem prompt_fill_single_forward_witness :
    (generate Pdemo demoSoftmax demoU [1, 2, 3] 0 1 (9/10) true).results = [] ∧
    (generate Pdemo demoSoftmax demoU [1, 2, 3] 0 1 (9/10) true).forwardCount = 1 ∧
    (generate Pdemo demoSoftmax demoU [1, 2, 3] 0 1 (9/10) true).finalTokens = [1, 2, 3] :=
  prompt_fill_single_forward Pdemo demoSoftmax demoU [1, 2, 3] 0 1 (9/10) true
    (by norm_num [Pdemo]) (by norm_num [Pdemo])

/-- counterexample for C5 as stated: with diagnostics requested and a prompt that exactly
fills `total_len`, the call yields NO TokenResult at all, so the log-probabilities over the
full prompt are never returned to the caller — the claim's final clause fails (the yielded
sequence, the generator's only output channel, is empty even though one forward pass
ran). -/
theorem prompt_fill_returns_no_logprobs :
    (generate Pdemo demoSoftmax demoU [4, 5, 6] 0 1 (9/10) true).results = [] ∧
    (generate Pdemo demoSoftmax demoU [4, 5, 6] 0 1 (9/10) true).forwardCount = 1 := by
  norm_num [generate, genLoop, Pdemo]

/-- C6 (amended): the engine performs no validation of `top_p` whatsoever — for EVERY
`top_p`, including values outside (0,1], an accepted prompt with a positive generation
budget still triggers at least one forward pass and yields at least one TokenResult;
there is no fail-fast path. -/
theorem no_top_p_validation (P : GenParams) (softmaxO : List ℚ → List ℚ) (us : Nat → ℚ)
    (promptTokens : List Int) (maxGenLen : Nat) (temperature topP : ℚ) (lp : Bool)
    (h1 : promptTokens.length < P.maxSeqLen)
    (h2 : promptTokens.length < min (maxGenLen + promptTokens.length) P.maxSeqLen) :
    1 ≤ (generate P softmaxO us promptTokens maxGenLen temperature topP lp).forwardCount ∧
    (generate P softmaxO us promptTokens maxGenLen temperature topP lp).results ≠ [] := by
  simp only [generate, if_neg (not_le.mpr h1)]
  obtain ⟨fuel, hfuel⟩ : ∃ k,
      min (maxGenLen + promptTokens.length) P.maxSeqLen - promptTokens.length = k + 1 :=
    ⟨_, (Nat.succ_pred_eq_of_pos (by omega)).symm⟩
  rw [hfuel]
  have hp := genLoop_progress P softmaxO us temperature topP lp
    (input_text_mask P promptTokens (min (maxGenLen + promptTokens.length) P.maxSeqLen))
    fuel (promptTokens ++ List.replicate (fuel + 1) P.padId)
    (List.replicate (min (maxGenLen + promptTokens.length) P.maxSeqLen) 0)
    0 false promptTokens.length
  exact ⟨le_trans hp.2 (Nat.le_add_left _ _), hp.1⟩

/-- witness for C6 (amended) at the invalid value top_p = 3/2: the run still performs
forward passes and yields results. -/
theorem no_top_p_validation_witness :
    1 ≤ (generate Pnuc demoSoftmax demoU [5] 2 1 (3/2) false).forwardCount ∧
    (generate Pnuc demoSoftmax demoU [5] 2 1 (3/2) false).results ≠ [] :=
  no_top_p_validation Pnuc demoSoftmax demoU [5] 2 1 (3/2) false
    (by norm_num [Pnuc]) (by norm_num [Pnuc])

/-- counterexample for C6 as stated: with `top_p = 3/2`, outside (0,1], the engine does
NOT fail fast before a forward pass — the concrete run performs two forward passes and
yields two TokenResults through the nucleus-sampling path. -/
theorem invalid_top_p_still_generates :
    (generate Pnuc demoSoftmax demoU [5] 2 1 (3/2) false).results.length = 2 ∧
    (generate Pnuc demoSoftmax demoU [5] 2 1 (3/2) false).forwardCount = 2 := by
  norm_num [generate, genLoop, stepNextToken, stepSampled, stepEos, stepResult, stepTlp,
    sliceL, writeSlice, input_text_mask, argmaxIdx, argmaxGo, Pnuc, demoSoftmax, demoU,
    sample_top_p, sortedWithIdx, cumsumMaskZero, multinomialIdx, probs_sort, probs_idx,
    List.insertionSort, List.orderedInsert, pairGE, List.replicate_succ]

theorem foldl_updateStopReason (texts : List String) : ∀ r : Option StopReason,
    texts.foldl updateStopReason r =
      match lastMarker texts with
      | some s => some s
      | none => r := by
  induction texts with
  | nil => intro r; rfl
  | cons t ts ih =>
    intro r
    rw [List.foldl_cons, ih (updateStopReason r t)]
    cases h : lastMarker ts with
    | some s => simp [lastMarker, h]
    | none =>
      simp only [lastMarker, h]
      by_cases h1 : t = "<|eot_id|>"
      · simp [updateStopReason, h1]
      · by_cases h2 : t = "<|eom_id|>" <;> simp [updateStopReason, h1, h2]

/-- C7 (amended): in a chat completion the StopReason is determined by the LAST
marker-bearing decoded fragment among the emitted tokens — `end_of_turn` when it is the
end-of-turn marker, `end_of_message` when it is the end-of-message marker (a later marker
overwrites an earlier one) — and defaults to `out_of_tokens` when no marker is ever
observed; the final value is a single well-defined function of the emitted texts, so the
three values are mutually exclusive per call. -/
theorem chat_stop_reason_last_marker (P : GenParams) (softmaxO : List ℚ → List ℚ)
    (us : Nat → ℚ) (promptTokens : List Int) (temperature topP : ℚ) (mg : Option Nat)
    (lp : Bool) :
    (chat_completion P softmaxO us promptTokens temperature topP mg lp).stopReason =
      specStopReason ((generate P softmaxO us promptTokens (resolveMaxGen P.maxSeqLen mg)
        temperature topP lp).results.map TokenResult.text) := by
  simp only [chat_completion, specStopReason]
  rw [← List.foldl_map, foldl_updateStopReason]
  cases lastMarker ((generate P softmaxO us promptTokens (resolveMaxGen P.maxSeqLen mg)
      temperature topP lp).results.map TokenResult.text) <;> rfl

/-- counterexample for C7 as stated: under `Pchat` the two greedy steps emit fragments
`<|eot_id|>` then `<|eom_id|>` (neither token is in the stop set, so the loop runs on);
the claim requires StopReason `end_of_turn` because some emitted fragment is the
end-of-turn marker, but the code's last-assignment-wins fold yields `end_of_message`. -/
theorem both_markers_last_wins :
    (chat_completion Pchat demoSoftmax demoU [5] 0 (9/10) (some 2) true).decoded_tokens =
      some ["<|eot_id|>", "<|eom_id|>"] ∧
    (chat_completion Pchat demoSoftmax demoU [5] 0 (9/10) (some 2) true).stopReason =
      StopReason.end_of_message := by
  norm_num [chat_completion, resolveMaxGen, generate, genLoop, stepNextToken, stepSampled,
    stepEos, stepResult, stepTlp, sliceL, writeSlice, input_text_mask, argmaxIdx, argmaxGo,
    Pchat, demoSoftmax, demoU, List.replicate_succ, updateStopReason]
  decide

theorem input_text_mask_getD (P : GenParams) (promptTokens : List Int) (totalLen : Nat)
    (i : Nat) (hi : i < promptTokens.length) :
    (input_text_mask P promptTokens totalLen).getD i false =
      decide (promptTokens.getD i P.padId ≠ P.padId) := by
  have hi3 : i < (input_text_mask P promptTokens totalLen).length := by
    simp only [input_text_mask, List.length_map, List.length_append]
    omega
  rw [List.getD_eq_getElem _ _ hi3, List.getD_eq_getElem _ _ hi]
  simp only [input_text_mask, List.getElem_map]
  rw [List.getElem_append_left hi]

/-- C10 (amended): the prompt mask is computed as `tokens != pad_id` over the initialized
buffer, so a position `i < prompt_len` holding the pad id is indeed not marked as prompt;
however, since the single-sequence decode loop starts at `cur_pos = prompt_len`, prompt
positions are never rewritten at all, so the prompt-echo guarantee holds even for prompts
containing the pad id — a pad position never receives a sampled token, and no stop token
can be sampled at a prompt position. -/
theorem prompt_mask_and_echo (P : GenParams) (softmaxO : List ℚ → List ℚ) (us : Nat → ℚ)
    (promptTokens : List Int) (maxGenLen : Nat) (temperature topP : ℚ) (lp : Bool)
    (h : promptTokens.length < P.maxSeqLen) :
    (∀ i, i < promptTokens.length →
      (input_text_mask P promptTokens
          (min (maxGenLen + promptTokens.length) P.maxSeqLen)).getD i false =
        decide (promptTokens.getD i P.padId ≠ P.padId)) ∧
    (generate P softmaxO us promptTokens maxGenLen temperature topP lp).finalTokens.take
      promptTokens.length = promptTokens := by
  refine ⟨fun i hi => input_text_mask_getD P promptTokens _ i hi, ?_⟩
  simp only [generate, if_neg (not_le.mpr h)]
  rw [genLoop_take P softmaxO us temperature topP lp _ _ _ _ 0 false _ _ (le_refl _)]
  exact List.take_left _ _

/-- witness for C10 (amended): the concrete prompt `[-1, 7]` containing the pad id -1, the
mask characterization instantiated at the pad position 0. -/
theorem prompt_mask_and_echo_witness :
    (input_text_mask Pdemo [-1, 7]
        (min (2 + ([-1, 7] : List Int).length) Pdemo.maxSeqLen)).getD 0 false =
      decide (([-1, 7] : List Int).getD 0 Pdemo.padId ≠ Pdemo.padId) ∧
    (generate Pdemo demoSoftmax demoU [-1, 7] 2 0 1 false).finalTokens.take 2 = [-1, 7] :=
  ⟨(prompt_mask_and_echo Pdemo demoSoftmax demoU [-1, 7] 2 0 1 false
      (by norm_num [Pdemo])).1 0 (by norm_num),
    (prompt_mask_and_echo Pdemo demoSoftmax demoU [-1, 7] 2 0 1 false
      (by norm_num [Pdemo])).2⟩

/-- counterexample for C10 as stated: the prompt `[-1, 7]` contains the pad id -1 at
position 0 < prompt_len, and that position is indeed not marked as prompt (mask false);
yet the sampled token (always 2 under `Pdemo`) is NOT written there — the decode loop
starts at `cur_pos = prompt_len`, the final buffer still begins with the unchanged prompt,
and the prompt-echo guarantee holds despite the pad id in the prompt. -/
theorem pad_prompt_still_echoed :
    (input_text_mask Pdemo [-1, 7] 4).getD 0 false = false ∧
    (generate Pdemo demoSoftmax demoU [-1, 7] 2 0 1 false).finalTokens = [-1, 7, 2, 2] ∧
    (generate Pdemo demoSoftmax demoU [-1, 7] 2 0 1 false).finalTokens.take 2 = [-1, 7] := by
  norm_num [generate, genLoop, stepNextToken, stepSampled, stepEos, stepResult, stepTlp,
    sliceL, writeSlice, input_text_mask, argmaxIdx, argmaxGo, Pdemo, demoSoftmax, demoU,
    List.replicate_succ]

end LlamaGen
